import Mathlib

/-!
Verification of the dataset-browser core of veusz
(`src/veusz/qtwidgets/datasetbrowser.py`): dataset filtering,
grouping-tree construction, preview rendering, renaming and tree
synchronisation.  Python floats are embedded as exact rationals extended
with the IEEE special values (±∞, NaN); fallible operations return
`Option`.
-/

/-- IEEE-style value used for dataset payloads: a finite rational, one of
the two infinities, or NaN.  Models the numpy float values flowing through
`DatasetNode.getPreviewPixmap`. -/
inductive FP where
  | fin (q : Rat)
  | pinf
  | ninf
  | nan
deriving DecidableEq, Repr

namespace FP

/-- IEEE subtraction on the embedded values (`y - minval` etc.). -/
def sub : FP → FP → FP
  | nan, _ => nan
  | _, nan => nan
  | fin a, fin b => fin (a - b)
  | fin _, pinf => ninf
  | fin _, ninf => pinf
  | pinf, fin _ => pinf
  | ninf, fin _ => ninf
  | pinf, pinf => nan
  | pinf, ninf => pinf
  | ninf, pinf => ninf
  | ninf, ninf => nan

/-- IEEE division on the embedded values; finite/0 gives a signed infinity
(0/0 gives NaN), infinity/infinity gives NaN, as numpy does for array
division. -/
def div : FP → FP → FP
  | nan, _ => nan
  | _, nan => nan
  | fin a, fin b =>
      if b = 0 then (if a = 0 then nan else if 0 < a then pinf else ninf)
      else fin (a / b)
  | fin _, pinf => fin 0
  | fin _, ninf => fin 0
  | pinf, fin b => if 0 ≤ b then pinf else ninf
  | ninf, fin b => if 0 ≤ b then ninf else pinf
  | pinf, pinf => nan
  | pinf, ninf => nan
  | ninf, pinf => nan
  | ninf, ninf => nan

/-- Multiplication by a natural constant (the `* size[1]` step). -/
def mulNat : FP → Nat → FP
  | fin a, n => fin (a * n)
  | pinf, n => if n = 0 then nan else pinf
  | ninf, n => if n = 0 then nan else ninf
  | nan, _ => nan

/-- `numpy.isfinite`. -/
def isFinite : FP → Bool
  | fin _ => true
  | _ => false

/-- NaN test. -/
def isNan : FP → Bool
  | nan => true
  | _ => false

/-- Finite value of an `FP`, with a default for the non-finite cases. -/
def finValD : FP → Rat → Rat
  | fin a, _ => a
  | _, d => d

/-- `x <= 0` as IEEE comparison (false on NaN); used for the zero-axis
test `minval <= 0`. -/
def leZero : FP → Bool
  | fin a => a ≤ 0
  | ninf => true
  | _ => false

/-- `x > 0` as IEEE comparison (false on NaN); used for `maxval > 0`. -/
def gtZero : FP → Bool
  | fin a => 0 < a
  | pinf => true
  | _ => false

/-- Binary minimum ignoring NaN (as `numpy.fmin`); only applied to
NaN-free inputs below. -/
def fmin : FP → FP → FP
  | nan, b => b
  | a, nan => a
  | ninf, _ => ninf
  | _, ninf => ninf
  | pinf, b => b
  | a, pinf => a
  | fin a, fin b => fin (min a b)

/-- Binary maximum ignoring NaN (as `numpy.fmax`). -/
def fmax : FP → FP → FP
  | nan, b => b
  | a, nan => a
  | pinf, _ => pinf
  | _, pinf => pinf
  | ninf, b => b
  | a, ninf => a
  | fin a, fin b => fin (max a b)

end FP

/-- `numpy.nanmin` over a sample: `none` models the `ValueError` raised on
an empty array; on an all-NaN array numpy warns and yields NaN; otherwise
the minimum over the non-NaN entries (infinities participate). -/
def nanminL (l : List FP) : Option FP :=
  match l with
  | [] => none
  | _ :: _ =>
    match l.filter (fun v => !v.isNan) with
    | [] => some FP.nan
    | x :: xs => some (xs.foldl FP.fmin x)

/-- `numpy.nanmax`, symmetric to `nanminL`. -/
def nanmaxL (l : List FP) : Option FP :=
  match l with
  | [] => none
  | _ :: _ =>
    match l.filter (fun v => !v.isNan) with
    | [] => some FP.nan
    | x :: xs => some (xs.foldl FP.fmax x)

/-- Helper for Python extended slicing: keep the head element when the
countdown is 0 (then restart it at `s - 1`), else skip it. -/
def everyNthAux (s : Nat) : List FP → Nat → List FP
  | [], _ => []
  | a :: rest, 0 => a :: everyNthAux s rest (s - 1)
  | _ :: rest, k + 1 => everyNthAux s rest k

/-- Python extended slicing `l[::s]`: every `s`-th element starting at
index 0. -/
def everyNth (s : Nat) (l : List FP) : List FP :=
  everyNthAux s l 0

/-- The downsampling step of `getPreviewPixmap`: all samples when there
are fewer than `H`, else stride `len // H + 1`. -/
def downsample (H : Nat) (data : List FP) : List FP :=
  if data.length < H then data else everyNth (data.length / H + 1) data

/-- Result of a successful preview render: the normalised finite polyline
points (the painting itself is toolkit-side) and whether the horizontal
reference line is drawn at the zero position (`minval <= 0 and
maxval > 0`). -/
structure Preview where
  pts : List (Rat × Rat)
  zeroAxis : Bool
deriving DecidableEq, Repr

/-- Core of `DatasetNode.getPreviewPixmap` after the dimension/type guard:
downsample, `nanmin`/`nanmax`, normalise `(y-min)/(max-min)*H`, keep the
finite points, scale x by `W/len`; `none` models the caught
`ValueError` (empty array in `nanmin`) and `ZeroDivisionError`
(`1./len(x)` with an empty filtered sample). -/
def previewCompute (data : List FP) : Option Preview :=
  let y := downsample 70 data
  match nanminL y, nanmaxL y with
  | some minval, some maxval =>
    let ynorm := y.map (fun v => ((v.sub minval).div (maxval.sub minval)).mulNat 70)
    let pairs := ((List.range y.length).zip ynorm).filter (fun p => p.2.isFinite)
    if pairs.length = 0 then none
    else
      some { pts := pairs.map (fun p => (((p.1 : Rat) / pairs.length) * 140, p.2.finValD 0)),
             zeroAxis := minval.leZero && maxval.gtZero }
  | _, _ => none

/-- A dataset as seen by the browser: the fields of the host document's
dataset objects that this module reads.  `description`, `userPreview` and
`linkedInformation` model the corresponding dataset methods' results. -/
structure Dataset where
  dimensions : Nat
  datatype : String
  dstype : String
  userSize : String
  tags : List String
  linked : Option String
  data : List FP
  description : Option String
  userPreview : String
  linkedInformation : String
deriving DecidableEq, Repr

/-- `datasetLinkFile`: the linked filename, or the sentinel "/" when the
dataset has no link. -/
def datasetLinkFile (ds : Dataset) : String :=
  match ds.linked with
  | none => "/"
  | some f => f

/-- `DatasetNode.getPreviewPixmap`: no preview unless the dataset is 1-D
numeric; otherwise the rendering pipeline of `previewCompute`. -/
def getPreviewPixmap (ds : Dataset) : Option Preview :=
  if ds.dimensions ≠ 1 ∨ ds.datatype ≠ "numeric" then none
  else previewCompute ds.data

/-- Case-sensitive substring test on character lists, modelling Python's
`t.find(sub) >= 0`. -/
def containsSub (sub : List Char) : List Char → Bool
  | [] => sub.isPrefixOf []
  | c :: rest => sub.isPrefixOf (c :: rest) || containsSub sub rest

/-- Python `t.find(sub) >= 0` on strings. -/
def strFind (t sub : String) : Bool :=
  containsSub sub.data t.data

/-- `os.path.basename`: the part of a path after the last slash. -/
def basename (p : String) : String :=
  String.mk (p.data.foldl (fun acc c => if c = '/' then [] else acc ++ [c]) [])

/-- The display columns a `DatasetNode` can be built from (the `cols`
strings "name"/"size"/"type"/"linkfile"). -/
inductive Col where
  | name
  | size
  | dstype
  | linkfile
deriving DecidableEq, Repr

/-- The display value of one column for a dataset, as computed in
`DatasetNode.__init__`. -/
def colData (dsname : String) (ds : Dataset) : Col → String
  | .name => dsname
  | .size => ds.userSize
  | .dstype => ds.dstype
  | .linkfile => basename (datasetLinkFile ds)

/-- The host document's dataset mapping `doc.data`, in dict (insertion)
order. -/
abbrev Doc := List (String × Dataset)

/-- Lookup in the dataset mapping (`doc.data[name]`, `none` for the
`KeyError` case). -/
def lookupDoc : Doc → String → Option Dataset
  | [], _ => none
  | (k, ds) :: rest, n => if k = n then some ds else lookupDoc rest n

/-- The state of `DatasetRelationModel` relevant to filtering and
grouping. -/
structure Model where
  doc : Doc
  grouping : String
  filter : String
  readonly : Bool
  filterdims : Option (List Nat)
  filterdtype : Option (List String)

/-- The kind of a tree node: plain `TMNode` group, `DatasetNode`, or
`FilenameNode`. -/
inductive NKind where
  | tm
  | dsnode
  | filenode
deriving DecidableEq, Repr

/-- A display-tree node: its kind, its tuple of display-column strings
(`TMNode.data`) and its ordered children. -/
inductive TreeN where
  | node (kind : NKind) (rowdata : List String) (children : List TreeN)

/-- Kind of a tree node. -/
def TreeN.kind : TreeN → NKind
  | .node k _ _ => k

/-- Display data of a tree node. -/
def TreeN.rowdata : TreeN → List String
  | .node _ r _ => r

/-- Children of a tree node. -/
def TreeN.children : TreeN → List TreeN
  | .node _ _ cs => cs

/-- A fresh `DatasetNode` row for dataset `ds` named `dsname` with the
given column set (leaf: no children). -/
def mkDsNode (dsname : String) (ds : Dataset) (cols : List Col) : TreeN :=
  .node .dsnode (cols.map (colData dsname ds)) []

/-- Strict lexicographic order on row tuples (componentwise case-sensitive
string comparison), the sort key of child insertion. -/
def rowLt : List String → List String → Bool
  | [], [] => false
  | [], _ :: _ => true
  | _ :: _, [] => false
  | a :: as, b :: bs => if a < b then true else if b < a then false else rowLt as bs

/-- Modelled from the spec: `TMNode.insertChildSorted` of
`utils/treemodel.py` is not part of the sources; per the spec, child
insertion keeps children in ascending lexicographic order of their first
column, ties broken by subsequent columns. -/
def insertSorted (c : TreeN) : List TreeN → List TreeN
  | [] => [c]
  | d :: rest => if rowLt c.rowdata d.rowdata then c :: d :: rest else d :: insertSorted c rest

/-- Insert a child into a node, keeping children sorted. -/
def insertChild (t : TreeN) (c : TreeN) : TreeN :=
  .node t.kind t.rowdata (insertSorted c t.children)

/-- `treeFromList`: a root node with the given data, with each node of
the list inserted sorted. -/
def treeFromList (nodelist : List TreeN) (rootdata : List String) : TreeN :=
  nodelist.foldl insertChild (.node .tm rootdata [])

/-- The dimensions filter of `datasetFilterOut`: pass when no filter is
set or the dataset's dimensionality is in the allowed set. -/
def dimsOK (m : Model) (ds : Dataset) : Bool :=
  match m.filterdims with
  | none => true
  | some dims => dims.contains ds.dimensions

/-- The datatype filter of `datasetFilterOut`. -/
def dtypeOK (m : Model) (ds : Dataset) : Bool :=
  match m.filterdtype with
  | none => true
  | some dts => dts.contains ds.datatype

/-- The free-text part of `datasetFilterOut`: with a non-empty filter the
dataset is kept only if the text occurs in some tag or some display
column of the node. -/
def textKeep (m : Model) (ds : Dataset) (node : TreeN) : Bool :=
  if m.filter = "" then true
  else ds.tags.any (fun t => strFind t m.filter) ||
       node.rowdata.any (fun t => strFind t m.filter)

/-- `DatasetRelationModel.datasetFilterOut`: true when the dataset should
be hidden. -/
def datasetFilterOut (m : Model) (ds : Dataset) (node : TreeN) : Bool :=
  let keep := textKeep m ds node
  let filterout := !dimsOK m ds || !dtypeOK m ds
  filterout || !keep

/-- The column set of `makeGrpTreeNone`. -/
def colsNone : List Col := [.name, .size, .dstype, .linkfile]

/-- `DatasetRelationModel.makeGrpTreeNone`: a flat root whose children
are the surviving datasets' nodes, inserted sorted. -/
def makeGrpTreeNone (m : Model) : TreeN :=
  m.doc.foldl
    (fun tree p =>
      let child := mkDsNode p.1 p.2 colsNone
      if datasetFilterOut m p.2 child then tree else insertChild tree child)
    (.node .tm ["Dataset", "Size", "Type", "File"] [])

/-- The accumulating `grpnodes` dict of `makeGrpTree`: group key to the
sorted children inserted so far, in key insertion order. -/
abbrev GrpAcc := List (String × List TreeN)

/-- Association lookup in the group accumulator. -/
def lookupG : GrpAcc → String → Option (List TreeN)
  | [], _ => none
  | (k, cs) :: rest, g => if k = g then some cs else lookupG rest g

/-- One `grpnodes[grp].insertChildSorted(child)` step, creating the group
on first use (at the end, as dict insertion order does). -/
def insertGrp : GrpAcc → String → TreeN → GrpAcc
  | [], g, c => [(g, [c])]
  | (k, cs) :: rest, g, c =>
      if k = g then (k, insertSorted c cs) :: rest
      else (k, cs) :: insertGrp rest g c

/-- The grouping loop of `DatasetRelationModel.makeGrpTree` over the
document's datasets. -/
def buildAcc (m : Model) (colitems : List Col) (grouper : Dataset → List String) :
    List (String × Dataset) → GrpAcc → GrpAcc
  | [], acc => acc
  | p :: rest, acc =>
      let child := mkDsNode p.1 p.2 colitems
      let acc' :=
        if datasetFilterOut m p.2 child then acc
        else (grouper p.2).foldl (fun a g => insertGrp a g child) acc
      buildAcc m colitems grouper rest acc'

/-- `DatasetRelationModel.makeGrpTree`: group the surviving datasets by
`grouper`, then assemble the root from the group nodes, inserted
sorted. -/
def makeGrpTree (m : Model) (coltitles : List String) (colitems : List Col)
    (grouper : Dataset → List String) (gkind : NKind) : TreeN :=
  let acc := buildAcc m colitems grouper m.doc []
  treeFromList (acc.map (fun q => .node gkind [q.1] q.2)) coltitles

/-- Insert a string into a strictly sorted list, skipping duplicates;
`sortDedup` below models Python's `sorted(tags)` on the tag set. -/
def insortStr (s : String) : List String → List String
  | [] => [s]
  | t :: ts =>
      if s < t then s :: t :: ts
      else if s = t then t :: ts
      else t :: insortStr s ts

/-- `sorted(ds.tags)` where `tags` is a set: ascending, duplicate-free. -/
def sortDedup (l : List String) : List String :=
  l.foldl (fun acc s => insortStr s acc) []

/-- The grouping function of `makeGrpTreeTags`: each tag, sorted, or the
sentinel "None" when the dataset carries no tags. -/
def getgrpTags (ds : Dataset) : List String :=
  if ds.tags = [] then ["None"] else sortDedup ds.tags

/-- The column set of the filename grouping mode: no link-file column. -/
def colsFilename : List Col := [.name, .size, .dstype]

/-- The column set of the tags grouping mode, link-file column included. -/
def colsTags : List Col := [.name, .size, .dstype, .linkfile]

/-- `makeGrpTreeFilename`: group by linked file, `FilenameNode` groups,
columns (name, size, type). -/
def makeGrpTreeFilename (m : Model) : TreeN :=
  makeGrpTree m ["Dataset", "Size", "Type"] colsFilename
    (fun ds => [datasetLinkFile ds]) .filenode

/-- `makeGrpTreeSize`: group by size descriptor. -/
def makeGrpTreeSize (m : Model) : TreeN :=
  makeGrpTree m ["Dataset", "Type", "Filename"] [.name, .dstype, .linkfile]
    (fun ds => [ds.userSize]) .tm

/-- `makeGrpTreeType`: group by dataset type. -/
def makeGrpTreeType (m : Model) : TreeN :=
  makeGrpTree m ["Dataset", "Size", "Filename"] [.name, .size, .linkfile]
    (fun ds => [ds.dstype]) .tm

/-- `makeGrpTreeTags`: group by tags, columns
(name, size, type, linkfile). -/
def makeGrpTreeTags (m : Model) : TreeN :=
  makeGrpTree m ["Dataset", "Size", "Type", "Filename"]
    colsTags getgrpTags .tm

/-- Modelled from the spec: `document.OperationDatasetRename` is outside
the sources; per the spec it renames the dataset under its key. -/
def applyRename (doc : Doc) (oldname newname : String) : Doc :=
  doc.map (fun p => if p.1 = oldname then (newname, p.2) else p)

/-- `DatasetRelationModel.setData`: reject (returning `false`, document
untouched) when the proposed name fails validation or collides with an
existing key; otherwise apply the rename operation and return `true`.
`utils.validateDatasetName` is outside the sources and is abstracted as
the predicate `validate`. -/
def setData (validate : String → Bool) (m : Model) (dsname newname : String) :
    Bool × Model :=
  if !validate newname || (lookupDoc m.doc newname).isSome then (false, m)
  else (true, { m with doc := applyRename m.doc dsname newname })

/-- The data-access side of a `DatasetNode`: the document it points into,
its column set and its display row (`self.data`, whose first entry is the
dataset name since `cols[0] == "name"`). -/
structure DatasetNode where
  doc : Doc
  cols : List Col
  rowdata : List String

/-- `DatasetNode.__init__` (the constructor asserts the name column comes
first); `none` models the `KeyError` on a name absent from the
document. -/
def mkDatasetNode (doc : Doc) (dsname : String) (cols : List Col) :
    Option DatasetNode :=
  match lookupDoc doc dsname with
  | none => none
  | some ds => some ⟨doc, cols, cols.map (colData dsname ds)⟩

/-- `DatasetNode.dataset`: the associated dataset, `none` for the caught
`KeyError` on a vanished name. -/
def DatasetNode.dataset (n : DatasetNode) : Option Dataset :=
  lookupDoc n.doc (n.rowdata.headD "")

/-- The size/preview tooltip branch: the dataset's user preview text,
extended with the rendered thumbnail when one exists.  `pixHtml`
abstracts `utils.pixmapAsHtml`. -/
def sizeTip (pixHtml : Preview → String) (ds : Dataset) : String :=
  match getPreviewPixmap ds with
  | none => ds.userPreview
  | some pix =>
      "<html>" ++ (ds.userPreview.replace "\n" "<br>") ++ "<br>" ++ pixHtml pix ++ "</html>"

/-- `DatasetNode.toolTip`: `none` when the dataset has vanished from the
document; otherwise the text for the requested column.  `wrap` abstracts
`textwrap.fill(_, 40)`, `pixHtml` abstracts `utils.pixmapAsHtml`; an
out-of-range column yields `none`. -/
def DatasetNode.toolTip (wrap : String → String) (pixHtml : Preview → String)
    (n : DatasetNode) (column : Nat) : Option String :=
  match lookupDoc n.doc (n.rowdata.headD "") with
  | none => none
  | some ds =>
    match n.cols.get? column with
    | some .name =>
        let text := ds.description.getD ""
        let text :=
          if ds.tags ≠ [] then
            text ++ "\n\n" ++ "Tags: " ++ " ".intercalate (sortDedup ds.tags)
          else text
        some (wrap text)
    | some .size => some (sizeTip pixHtml ds)
    | some .dstype =>
        if n.cols.contains .size then some (wrap ds.linkedInformation)
        else some (sizeTip pixHtml ds)
    | some .linkfile => some (wrap ds.linkedInformation)
    | none => none

/-- A displayed tree node as the view keeps it across refreshes: a
display-state handle (identity carrying expansion/selection), kind, row
and children. -/
inductive STree where
  | node (handle : Nat) (kind : NKind) (rowdata : List String) (children : List STree)

/-- Children of a displayed node. -/
def STree.kids : STree → List STree
  | .node _ _ _ cs => cs

/-- The identity key a node is matched by across refreshes: dataset nodes
by their name (first column), other nodes by their full label tuple,
together with their kind. -/
def skey (t : STree) : NKind × List String :=
  match t with
  | .node _ k r _ =>
    match k with
    | .dsnode => (k, [r.headD ""])
    | _ => (k, r)

/-- Sibling identity keys are pairwise distinct. -/
def keysNodupB : List STree → Bool
  | [] => true
  | c :: cs => cs.all (fun d => !(skey d = skey c : Bool)) && keysNodupB cs

mutual

/-- Well-formed display tree: at every level the sibling identity keys
are distinct (the spec calls a collision an implementation defect). -/
def wfS : STree → Bool
  | .node _ _ _ cs => keysNodupB cs && wfL cs

/-- `wfS` on every member of a list. -/
def wfL : List STree → Bool
  | [] => true
  | c :: cs => wfS c && wfL cs

end

mutual

/-- Modelled from the spec: `TreeModel.syncTree` of `utils/treemodel.py`
is not part of the sources.  Per the spec, an inserted subtree gets fresh
display-state handles throughout, drawn from a counter. -/
def freshTree : STree → Nat → STree × Nat
  | .node _ k r cs, ctr =>
      let p := freshKids cs (ctr + 1)
      (.node ctr k r p.1, p.2)

/-- Fresh handles for a list of subtrees. -/
def freshKids : List STree → Nat → List STree × Nat
  | [], ctr => ([], ctr)
  | c :: cs, ctr =>
      let p := freshTree c ctr
      let q := freshKids cs p.2
      (p.1 :: q.1, q.2)

end

mutual

/-- Modelled from the spec: `TreeModel.syncTree` of `utils/treemodel.py`
is not part of the sources.  Per the spec, a matched pair keeps the old
node's display-state handle, copies the new node's data, and recurses;
the merged child order follows the new tree. -/
def syncNode (oldn newn : STree) (ctr : Nat) : STree × Nat :=
  match oldn, newn with
  | .node h _ _ ocs, .node _ k r ncs =>
      let p := syncKids ocs ncs ctr
      (.node h k r p.1, p.2)
termination_by sizeOf newn

/-- Per the spec: each new child is matched against the old children by
identity key; matched children are synced recursively, unmatched new
children are inserted fresh (old children without a match are dropped). -/
def syncKids (olds : List STree) (news : List STree) (ctr : Nat) :
    List STree × Nat :=
  match news with
  | [] => ([], ctr)
  | n :: ns =>
    match olds.find? (fun o => skey o = skey n) with
    | some o =>
        let p := syncNode o n ctr
        let q := syncKids olds ns p.2
        (p.1 :: q.1, q.2)
    | none =>
        let p := freshTree n ctr
        let q := syncKids olds ns p.2
        (p.1 :: q.1, q.2)
termination_by sizeOf news

end

/-- The claim's reading of the preview minimum: minimum over the sample
after discarding ALL non-finite values (NaN and both infinities).  Stated
for comparison with the source's `nanminL`, which discards NaN only. -/
def finiteMin (l : List FP) : Option FP :=
  match l.filter FP.isFinite with
  | [] => none
  | x :: xs => some (xs.foldl FP.fmin x)

/-- The claim's reading of the preview maximum, symmetric to
`finiteMin`. -/
def finiteMax (l : List FP) : Option FP :=
  match l.filter FP.isFinite with
  | [] => none
  | x :: xs => some (xs.foldl FP.fmax x)

/-- The ramp q, q+1, ..., q+n-1 as finite samples. -/
def finRamp : Nat → Rat → List FP
  | 0, _ => []
  | n + 1, q => FP.fin q :: finRamp n (q + 1)

/-- A 1-D numeric dataset holding the samples 1, 2, ..., 200. -/
def ds200 : Dataset :=
  { dimensions := 1, datatype := "numeric", dstype := "1d", userSize := "200",
    tags := [], linked := none,
    data := finRamp 200 1,
    description := none, userPreview := "", linkedInformation := "" }

/-- A 2-D dataset (no preview expected). -/
def ds2d : Dataset :=
  { dimensions := 2, datatype := "numeric", dstype := "2d", userSize := "4",
    tags := [], linked := none,
    data := [FP.fin 1, FP.fin 2, FP.fin 3, FP.fin 4],
    description := none, userPreview := "", linkedInformation := "" }

/-- A 1-D numeric dataset with no samples. -/
def dsEmpty : Dataset :=
  { dimensions := 1, datatype := "numeric", dstype := "1d", userSize := "0",
    tags := [], linked := none, data := [],
    description := none, userPreview := "", linkedInformation := "" }

/-- A 1-D numeric dataset whose samples are all equal (5,5,5,5). -/
def dsConst5 : Dataset :=
  { dimensions := 1, datatype := "numeric", dstype := "1d", userSize := "4",
    tags := [], linked := none,
    data := [FP.fin 5, FP.fin 5, FP.fin 5, FP.fin 5],
    description := none, userPreview := "", linkedInformation := "" }

/-- A 1-D numeric dataset with only non-finite samples. -/
def dsNonfin : Dataset :=
  { dimensions := 1, datatype := "numeric", dstype := "1d", userSize := "3",
    tags := [], linked := none, data := [FP.nan, FP.pinf, FP.ninf],
    description := none, userPreview := "", linkedInformation := "" }

/-- A 1-D numeric dataset with one finite and one infinite sample; on it
the source's NaN-only min/max differs observably from the claim's
all-non-finite reading. -/
def ds1inf : Dataset :=
  { dimensions := 1, datatype := "numeric", dstype := "1d", userSize := "2",
    tags := [], linked := none, data := [FP.fin 1, FP.pinf],
    description := none, userPreview := "", linkedInformation := "" }

/-- A constant dataset for the C5 witness. -/
def dsC5w : Dataset :=
  { dimensions := 1, datatype := "numeric", dstype := "1d", userSize := "3",
    tags := [], linked := none, data := [FP.fin 7, FP.fin 7, FP.fin 7],
    description := none, userPreview := "", linkedInformation := "" }

/-- A small model and dataset for the C1 witness: the filter text equals
the tag "alpha" though it is no substring of the displayed columns. -/
def dsC1w : Dataset :=
  { dimensions := 1, datatype := "numeric", dstype := "1d", userSize := "3",
    tags := ["alpha"], linked := none, data := [],
    description := none, userPreview := "", linkedInformation := "" }

/-- Model for the C1 witness. -/
def mC1w : Model :=
  { doc := [("x", dsC1w)], grouping := "none", filter := "alpha",
    readonly := false, filterdims := some [1], filterdtype := none }

/-- Dataset used in the C7 witness document. -/
def dsC7w : Dataset :=
  { dimensions := 1, datatype := "numeric", dstype := "1d", userSize := "3",
    tags := [], linked := none, data := [],
    description := none, userPreview := "", linkedInformation := "" }

/-- Model for the C7 witness. -/
def mC7w : Model :=
  { doc := [("a", dsC7w)], grouping := "none", filter := "",
    readonly := false, filterdims := none, filterdtype := none }

/-- A node pointing at an empty document for the C8 witness. -/
def nodeC8w : DatasetNode :=
  { doc := [], cols := [Col.name, Col.size], rowdata := ["gone", "3"] }

/-- Display tree for the C9 witness: a root with two dataset rows. -/
def tC9w : STree :=
  .node 3 .tm ["root"]
    [.node 1 .dsnode ["a", "1"] [], .node 2 .dsnode ["b", "2"] []]

/-- Count of children displaying dataset name `n` (first column). -/
def namedCnt (cs : List TreeN) (n : String) : Nat :=
  cs.countP (fun c => c.rowdata.headD "" == n)

/-- Number of root children labelled with the single-column group key
`g`. -/
def grpNodeCnt (root : TreeN) (g : String) : Nat :=
  root.children.countP (fun gn => gn.rowdata == [g])

/-- Total number of dataset rows named `dsname` under root children
labelled `g`. -/
def grpChildCnt (root : TreeN) (g dsname : String) : Nat :=
  (root.children.map
    (fun gn => if gn.rowdata = [g] then namedCnt gn.children dsname else 0)).sum

/-- Children registered under key `g`, with the dataset-name count. -/
def groupCnt (acc : GrpAcc) (g n : String) : Nat :=
  namedCnt ((lookupG acc g).getD []) n

/-- Dataset with tags {a, b} for the C2 witness. -/
def dsC2w : Dataset :=
  { dimensions := 1, datatype := "numeric", dstype := "1d", userSize := "3",
    tags := ["b", "a"], linked := none, data := [],
    description := none, userPreview := "", linkedInformation := "" }

/-- Untagged dataset for the C2 witness. -/
def dsC2n : Dataset :=
  { dimensions := 1, datatype := "numeric", dstype := "1d", userSize := "2",
    tags := [], linked := none, data := [],
    description := none, userPreview := "", linkedInformation := "" }

/-- Model for the C2 witness: two datasets, empty filter. -/
def mC2w : Model :=
  { doc := [("x", dsC2w), ("y", dsC2n)], grouping := "tags", filter := "",
    readonly := false, filterdims := none, filterdtype := none }

/-- Whether any group of the tree carries a dataset row named `n`. -/
def treeHasDsNamed (root : TreeN) (n : String) : Bool :=
  root.children.any (fun gn => gn.children.any (fun c => c.rowdata.headD "" == n))

/-- A dataset whose linked file PATH contains "mydir" only in its
directory part; the displayed link-file column is the basename
"f.csv". -/
def dsC10 : Dataset :=
  { dimensions := 1, datatype := "numeric", dstype := "1d", userSize := "10",
    tags := [], linked := some "/mydir/f.csv", data := [],
    description := none, userPreview := "", linkedInformation := "" }

/-- Model filtering on "mydir" over the single dataset `dsC10`. -/
def mC10 : Model :=
  { doc := [("x", dsC10)], grouping := "tags", filter := "mydir",
    readonly := false, filterdims := none, filterdtype := none }

/-- A dataset whose linked file BASENAME contains the filter text. -/
def dsC10w : Dataset :=
  { dimensions := 1, datatype := "numeric", dstype := "1d", userSize := "10",
    tags := [], linked := some "/data/mydir.csv", data := [],
    description := none, userPreview := "", linkedInformation := "" }

/-- Model filtering on "mydir" over the single dataset `dsC10w`. -/
def mC10w : Model :=
  { doc := [("x", dsC10w)], grouping := "tags", filter := "mydir",
    readonly := false, filterdims := none, filterdtype := none }

theorem everyNthAux_get? (s : Nat) (hs : 1 ≤ s) (l : List FP) :
    ∀ (c j : Nat), (everyNthAux s l c).get? j = l.get? (c + j * s) := by
  induction l with
  | nil => intro c j; simp [everyNthAux]
  | cons a rest ih =>
    intro c j
    cases c with
    | zero =>
      cases j with
      | zero => simp [everyNthAux]
      | succ j =>
        rw [everyNthAux]
        simp only [List.get?_cons_succ]
        rw [ih (s - 1) j]
        have h1 : 0 + (j + 1) * s = (s - 1 + j * s) + 1 := by
          rw [Nat.succ_mul]; omega
        rw [h1]
        simp only [List.get?_cons_succ]
    | succ k =>
      rw [everyNthAux]
      rw [ih k j]
      have h1 : k + 1 + j * s = (k + j * s) + 1 := by omega
      rw [h1]
      simp only [List.get?_cons_succ]

theorem everyNth_get? (s : Nat) (hs : 1 ≤ s) (l : List FP) (k : Nat) :
    (everyNth s l).get? k = l.get? (k * s) := by
  have h := everyNthAux_get? s hs l 0 k
  simpa [everyNth] using h

theorem everyNthAux_subset (s : Nat) (l : List FP) :
    ∀ (c : Nat), ∀ v ∈ everyNthAux s l c, v ∈ l := by
  induction l with
  | nil => intro c v hv; simp [everyNthAux] at hv
  | cons a rest ih =>
    intro c v hv
    cases c with
    | zero =>
      rw [everyNthAux] at hv
      rcases List.mem_cons.1 hv with h | h
      · simp [h]
      · exact List.mem_cons_of_mem a (ih (s - 1) v h)
    | succ k =>
      rw [everyNthAux] at hv
      exact List.mem_cons_of_mem a (ih k v hv)

theorem everyNth_subset (s : Nat) (l : List FP) :
    ∀ v ∈ everyNth s l, v ∈ l :=
  everyNthAux_subset s l 0

theorem downsample_subset (H : Nat) (data : List FP) :
    ∀ v ∈ downsample H data, v ∈ data := by
  unfold downsample
  split
  · intro v hv; exact hv
  · exact everyNth_subset _ data

theorem downsample_nil (H : Nat) : downsample H [] = [] := by
  unfold downsample
  split <;> simp_all [everyNth, everyNthAux]

theorem mulNat70_isFinite (x : FP) : (x.mulNat 70).isFinite = x.isFinite := by
  cases x <;> simp [FP.mulNat, FP.isFinite]

theorem norm_not_finite (v m : FP) :
    (((v.sub m).div (m.sub m)).mulNat 70).isFinite = false := by
  rw [mulNat70_isFinite]
  cases v <;> cases m <;> simp only [FP.sub, FP.div, sub_self] <;> try rfl
  split
  · split <;> first | rfl | (split <;> rfl)
  · next h => simp at h

theorem sub_not_finite (v m : FP) (hv : v.isFinite = false)
    (hm : m.isFinite = false) : (v.sub m).isFinite = false := by
  cases v <;> cases m <;> simp_all [FP.sub, FP.isFinite]

theorem div_nan (v w : FP) (hv : v.isFinite = false) (hw : w.isFinite = false) :
    v.div w = FP.nan := by
  cases v <;> cases w <;> simp_all [FP.div, FP.isFinite]

theorem fmin_not_finite (a b : FP) (ha : a.isFinite = false)
    (hb : b.isFinite = false) : (a.fmin b).isFinite = false := by
  cases a <;> cases b <;> simp_all [FP.fmin, FP.isFinite]

theorem fmax_not_finite (a b : FP) (ha : a.isFinite = false)
    (hb : b.isFinite = false) : (a.fmax b).isFinite = false := by
  cases a <;> cases b <;> simp_all [FP.fmax, FP.isFinite]

theorem foldl_fmin_not_finite (xs : List FP) (x : FP) (hx : x.isFinite = false)
    (h : ∀ v ∈ xs, v.isFinite = false) : (xs.foldl FP.fmin x).isFinite = false := by
  induction xs generalizing x with
  | nil => simpa using hx
  | cons a as ih =>
    simp only [List.foldl_cons]
    exact ih _ (fmin_not_finite _ _ hx (h a (by simp)))
      (fun v hv => h v (by simp [hv]))

theorem foldl_fmax_not_finite (xs : List FP) (x : FP) (hx : x.isFinite = false)
    (h : ∀ v ∈ xs, v.isFinite = false) : (xs.foldl FP.fmax x).isFinite = false := by
  induction xs generalizing x with
  | nil => simpa using hx
  | cons a as ih =>
    simp only [List.foldl_cons]
    exact ih _ (fmax_not_finite _ _ hx (h a (by simp)))
      (fun v hv => h v (by simp [hv]))

theorem nanminL_not_finite (l : List FP) (h : ∀ v ∈ l, v.isFinite = false)
    (m : FP) (hm : nanminL l = some m) : m.isFinite = false := by
  cases l with
  | nil => simp [nanminL] at hm
  | cons a rest =>
    simp only [nanminL] at hm
    cases heq : (a :: rest).filter (fun v => !v.isNan) with
    | nil =>
      rw [heq] at hm
      simp only [Option.some.injEq] at hm
      subst hm
      rfl
    | cons x xs =>
      rw [heq] at hm
      simp only [Option.some.injEq] at hm
      subst hm
      have hmem : ∀ v ∈ x :: xs, v ∈ a :: rest := by
        intro v hv
        have hv2 : v ∈ (a :: rest).filter (fun v => !v.isNan) := heq ▸ hv
        exact List.mem_of_mem_filter hv2
      exact foldl_fmin_not_finite xs x (h x (hmem x (by simp)))
        (fun v hv => h v (hmem v (by simp [hv])))

theorem nanmaxL_not_finite (l : List FP) (h : ∀ v ∈ l, v.isFinite = false)
    (m : FP) (hm : nanmaxL l = some m) : m.isFinite = false := by
  cases l with
  | nil => simp [nanmaxL] at hm
  | cons a rest =>
    simp only [nanmaxL] at hm
    cases heq : (a :: rest).filter (fun v => !v.isNan) with
    | nil =>
      rw [heq] at hm
      simp only [Option.some.injEq] at hm
      subst hm
      rfl
    | cons x xs =>
      rw [heq] at hm
      simp only [Option.some.injEq] at hm
      subst hm
      have hmem : ∀ v ∈ x :: xs, v ∈ a :: rest := by
        intro v hv
        have hv2 : v ∈ (a :: rest).filter (fun v => !v.isNan) := heq ▸ hv
        exact List.mem_of_mem_filter hv2
      exact foldl_fmax_not_finite xs x (h x (hmem x (by simp)))
        (fun v hv => h v (hmem v (by simp [hv])))

theorem previewCompute_none_of_all_norm_nonfinite (data : List FP)
    (minval maxval : FP)
    (hmin : nanminL (downsample 70 data) = some minval)
    (hmax : nanmaxL (downsample 70 data) = some maxval)
    (h : ∀ v ∈ downsample 70 data,
      (((v.sub minval).div (maxval.sub minval)).mulNat 70).isFinite = false) :
    previewCompute data = none := by
  simp only [previewCompute]
  rw [hmin, hmax]
  simp only
  have hfilter :
      (((List.range (downsample 70 data).length).zip
        ((downsample 70 data).map
          (fun v => ((v.sub minval).div (maxval.sub minval)).mulNat 70))).filter
        (fun p => p.2.isFinite)) = [] := by
    rw [List.filter_eq_nil]
    intro p hp
    have h2 := (List.of_mem_zip hp).2
    rcases List.mem_map.1 h2 with ⟨v, hv, hveq⟩
    rw [← hveq]
    simp [h v hv]
  rw [hfilter]
  simp

theorem previewCompute_none_of_minmax_eq (data : List FP)
    (h : nanminL (downsample 70 data) = nanmaxL (downsample 70 data)) :
    previewCompute data = none := by
  cases hmin : nanminL (downsample 70 data) with
  | none =>
    simp only [previewCompute]
    rw [hmin]
  | some m =>
    have hmax : nanmaxL (downsample 70 data) = some m := by rw [← h, hmin]
    exact previewCompute_none_of_all_norm_nonfinite data m m hmin hmax
      (fun v _ => norm_not_finite v m)

theorem previewCompute_none_of_nonfinite (data : List FP)
    (h : ∀ v ∈ data, v.isFinite = false) : previewCompute data = none := by
  have hsub := downsample_subset 70 data
  cases hmin : nanminL (downsample 70 data) with
  | none =>
    simp only [previewCompute]
    rw [hmin]
  | some m1 =>
    cases hmax : nanmaxL (downsample 70 data) with
    | none =>
      simp only [previewCompute]
      rw [hmin, hmax]
    | some m2 =>
      have hm1 : m1.isFinite = false :=
        nanminL_not_finite _ (fun v hv => h v (hsub v hv)) m1 hmin
      have hm2 : m2.isFinite = false :=
        nanmaxL_not_finite _ (fun v hv => h v (hsub v hv)) m2 hmax
      refine previewCompute_none_of_all_norm_nonfinite data m1 m2 hmin hmax ?_
      intro v hv
      have hvnf : v.isFinite = false := h v (hsub v hv)
      rw [div_nan _ _ (sub_not_finite v m1 hvnf hm1) (sub_not_finite m2 m1 hm2 hm1)]
      rfl

theorem fmin_self (c : FP) : c.fmin c = c := by
  cases c <;> simp [FP.fmin]

theorem fmax_self (c : FP) : c.fmax c = c := by
  cases c <;> simp [FP.fmax]

theorem foldl_fmin_const (xs : List FP) (c : FP) (h : ∀ v ∈ xs, v = c) :
    xs.foldl FP.fmin c = c := by
  induction xs with
  | nil => rfl
  | cons a as ih =>
    have ha : a = c := h a (by simp)
    rw [List.foldl_cons, ha, fmin_self]
    exact ih (fun v hv => h v (by simp [hv]))

theorem foldl_fmax_const (xs : List FP) (c : FP) (h : ∀ v ∈ xs, v = c) :
    xs.foldl FP.fmax c = c := by
  induction xs with
  | nil => rfl
  | cons a as ih =>
    have ha : a = c := h a (by simp)
    rw [List.foldl_cons, ha, fmax_self]
    exact ih (fun v hv => h v (by simp [hv]))

theorem nanminL_eq_nanmaxL_of_const (l : List FP) (c : FP) (h : ∀ v ∈ l, v = c) :
    nanminL l = nanmaxL l := by
  cases l with
  | nil => rfl
  | cons a rest =>
    simp only [nanminL, nanmaxL]
    cases heq : (a :: rest).filter (fun v => !v.isNan) with
    | nil => rfl
    | cons x xs =>
      simp only [Option.some.injEq]
      have hmem : ∀ v ∈ x :: xs, v = c :=
        fun v hv => h v (List.mem_of_mem_filter (heq ▸ hv))
      have hx : x = c := hmem x (by simp)
      rw [hx, foldl_fmin_const xs c (fun v hv => hmem v (by simp [hv])),
        foldl_fmax_const xs c (fun v hv => hmem v (by simp [hv]))]

theorem previewCompute_none_of_const (data : List FP) (c : FP)
    (h : ∀ v ∈ data, v = c) : previewCompute data = none :=
  previewCompute_none_of_minmax_eq data
    (nanminL_eq_nanmaxL_of_const _ c (fun v hv => h v (downsample_subset 70 data v hv)))

set_option maxRecDepth 100000 in

unseal Rat.add Rat.sub Rat.mul Rat.inv in

/-- Claim C4: the preview renderer yields no result (and, being a total
function into `Option`, never fails) for datasets that are not 1-D
numeric, and for 1-D numeric data that is empty, all-equal, or entirely
non-finite; it yields a bitmap for the 1-D numeric samples 1..200. -/
theorem claim_C4_preview_guards :
    (∀ ds : Dataset,
      ((ds.dimensions ≠ 1 ∨ ds.datatype ≠ "numeric") → getPreviewPixmap ds = none) ∧
      (ds.data = [] → getPreviewPixmap ds = none) ∧
      (∀ c, (∀ v ∈ ds.data, v = c) → getPreviewPixmap ds = none) ∧
      ((∀ v ∈ ds.data, v.isFinite = false) → getPreviewPixmap ds = none)) ∧
    (getPreviewPixmap ds200).isSome = true := by
  constructor
  · intro ds
    refine ⟨?_, ?_, ?_, ?_⟩
    · intro h
      unfold getPreviewPixmap
      rw [if_pos h]
    · intro h
      unfold getPreviewPixmap
      split
      · rfl
      · rw [h]
        decide
    · intro c h
      unfold getPreviewPixmap
      split
      · rfl
      · exact previewCompute_none_of_const ds.data c h
    · intro h
      unfold getPreviewPixmap
      split
      · rfl
      · exact previewCompute_none_of_nonfinite ds.data h
  · decide

/-- Witness for C4 at the concrete datasets of the claim (2-D, empty,
constant, all-non-finite). -/
theorem claim_C4_preview_guards_witness :
    getPreviewPixmap ds2d = none ∧ getPreviewPixmap dsEmpty = none ∧
    getPreviewPixmap dsConst5 = none ∧ getPreviewPixmap dsNonfin = none :=
  ⟨(claim_C4_preview_guards.1 ds2d).1 (Or.inl (by decide)),
   (claim_C4_preview_guards.1 dsEmpty).2.1 rfl,
   (claim_C4_preview_guards.1 dsConst5).2.2.1 (FP.fin 5) (by decide),
   (claim_C4_preview_guards.1 dsNonfin).2.2.2 (by decide)⟩

/-- Counterexample to claim C5 as stated: for the 1-D numeric data
[1, +inf], the minimum and maximum over the sample with ALL non-finite
values removed coincide, so the claim demands an absent result; the code
(`nanmin`/`nanmax`, which keep infinities) returns a preview. -/
theorem claim_C5_counterexample :
    ds1inf.dimensions = 1 ∧ ds1inf.datatype = "numeric" ∧
    finiteMin (downsample 70 ds1inf.data) = finiteMax (downsample 70 ds1inf.data) ∧
    getPreviewPixmap ds1inf ≠ none := by decide

/-- Claim C5 as amended: the normalisation bounds are `nanminL`/`nanmaxL`
of the downsampled sample — ignoring NaN only, infinities participate —
and whenever they coincide (which covers the empty sample, the all-NaN
sample, and equal min/max) the result is absent. -/
theorem claim_C5_nanminmax (ds : Dataset)
    (h : nanminL (downsample 70 ds.data) = nanmaxL (downsample 70 ds.data)) :
    getPreviewPixmap ds = none := by
  unfold getPreviewPixmap
  split
  · rfl
  · exact previewCompute_none_of_minmax_eq ds.data h

/-- Witness for the amended C5 at a concrete constant dataset. -/
theorem claim_C5_nanminmax_witness :
    nanminL (downsample 70 dsC5w.data) = nanmaxL (downsample 70 dsC5w.data) ∧
    getPreviewPixmap dsC5w = none :=
  ⟨by decide, claim_C5_nanminmax dsC5w (by decide)⟩

/-- Claim C6: the preview downsampling (`downsample`, applied with
H = 70 inside `previewCompute`) keeps all samples when there are fewer
than `H`, and otherwise takes every `stride`-th sample from index 0 with
`stride = len / H + 1`. -/
theorem claim_C6_downsample (H : Nat) (data : List FP) :
    (data.length < H → downsample H data = data) ∧
    (H ≤ data.length →
      ∀ k, (downsample H data).get? k = data.get? (k * (data.length / H + 1))) := by
  constructor
  · intro h
    unfold downsample
    rw [if_pos h]
  · intro h k
    unfold downsample
    rw [if_neg (by omega)]
    exact everyNth_get? _ (Nat.succ_le_succ (Nat.zero_le _)) data k

/-- Witness for C6: a short list is kept whole; a five-sample list at
H = 2 is strided by 5/2+1 = 3. -/
theorem claim_C6_downsample_witness :
    downsample 10 [FP.fin 1, FP.fin 2] = [FP.fin 1, FP.fin 2] ∧
    (downsample 2 [FP.fin 1, FP.fin 2, FP.fin 3, FP.fin 4, FP.fin 5]).get? 1 =
      [FP.fin 1, FP.fin 2, FP.fin 3, FP.fin 4, FP.fin 5].get?
        (1 * ([FP.fin 1, FP.fin 2, FP.fin 3, FP.fin 4, FP.fin 5].length / 2 + 1)) :=
  ⟨(claim_C6_downsample 10 _).1 (by decide),
   (claim_C6_downsample 2 _).2 (by decide) 1⟩

theorem isPrefixOf_self (l : List Char) : l.isPrefixOf l = true := by
  induction l with
  | nil => rfl
  | cons a as ih => simp [List.isPrefixOf, ih]

theorem strFind_self (t : String) : strFind t t = true := by
  unfold strFind
  cases h : t.data with
  | nil => rfl
  | cons c rest =>
    unfold containsSub
    simp [isPrefixOf_self]

theorem filterOut_false_iff (m : Model) (ds : Dataset) (node : TreeN) :
    datasetFilterOut m ds node = false ↔
      (dimsOK m ds = true ∧ dtypeOK m ds = true ∧ textKeep m ds node = true) := by
  unfold datasetFilterOut
  simp [and_assoc]

theorem dimsOK_iff (m : Model) (ds : Dataset) :
    dimsOK m ds = true ↔ ∀ dims, m.filterdims = some dims → ds.dimensions ∈ dims := by
  unfold dimsOK
  cases m.filterdims with
  | none => simp
  | some l => simp [List.elem_iff]

theorem dtypeOK_iff (m : Model) (ds : Dataset) :
    dtypeOK m ds = true ↔ ∀ dts, m.filterdtype = some dts → ds.datatype ∈ dts := by
  unfold dtypeOK
  cases m.filterdtype with
  | none => simp
  | some l => simp [List.elem_iff]

theorem textKeep_iff (m : Model) (ds : Dataset) (node : TreeN) :
    textKeep m ds node = true ↔
      (m.filter = "" ∨ (∃ t ∈ ds.tags, strFind t m.filter = true) ∨
        (∃ c ∈ node.rowdata, strFind c m.filter = true)) := by
  unfold textKeep
  split
  · next h => simp [h]
  · next h => simp [h, List.any_eq_true]

/-- Claim C1: `datasetFilterOut` keeps a dataset (returns false) exactly
when its dimensionality and datatype pass the optional set filters and
the free text is empty or a case-sensitive substring of some tag or some
display column of the node; in particular, with empty filter text the
text condition is vacuous, and filter text equal to one of the dataset's
tags always passes the text condition. -/
theorem claim_C1_datasetFilterOut (m : Model) (ds : Dataset) (node : TreeN) :
    (datasetFilterOut m ds node = false ↔
      ((∀ dims, m.filterdims = some dims → ds.dimensions ∈ dims) ∧
       (∀ dts, m.filterdtype = some dts → ds.datatype ∈ dts) ∧
       (m.filter = "" ∨ (∃ t ∈ ds.tags, strFind t m.filter = true) ∨
        (∃ c ∈ node.rowdata, strFind c m.filter = true)))) ∧
    (m.filter = "" →
      (datasetFilterOut m ds node = false ↔
        ((∀ dims, m.filterdims = some dims → ds.dimensions ∈ dims) ∧
         (∀ dts, m.filterdtype = some dts → ds.datatype ∈ dts)))) ∧
    (∀ t ∈ ds.tags, m.filter = t →
      (∀ dims, m.filterdims = some dims → ds.dimensions ∈ dims) →
      (∀ dts, m.filterdtype = some dts → ds.datatype ∈ dts) →
      datasetFilterOut m ds node = false) := by
  have hmain : datasetFilterOut m ds node = false ↔
      ((∀ dims, m.filterdims = some dims → ds.dimensions ∈ dims) ∧
       (∀ dts, m.filterdtype = some dts → ds.datatype ∈ dts) ∧
       (m.filter = "" ∨ (∃ t ∈ ds.tags, strFind t m.filter = true) ∨
        (∃ c ∈ node.rowdata, strFind c m.filter = true))) := by
    rw [filterOut_false_iff, dimsOK_iff, dtypeOK_iff, textKeep_iff]
  refine ⟨hmain, ?_, ?_⟩
  · intro hf
    rw [hmain]
    simp [hf]
  · intro t ht hf hdims hdts
    rw [hmain]
    exact ⟨hdims, hdts, Or.inr (Or.inl ⟨t, ht, hf ▸ strFind_self t⟩)⟩

/-- Witness for C1: with filter text equal to the tag, the dataset is
kept although its name and columns do not contain the text. -/
theorem claim_C1_datasetFilterOut_witness :
    datasetFilterOut mC1w dsC1w (mkDsNode "x" dsC1w colsNone) = false :=
  (claim_C1_datasetFilterOut mC1w dsC1w (mkDsNode "x" dsC1w colsNone)).2.2
    "alpha" (by decide) rfl (by intro dims h; cases h; decide) (by intro dts h; cases h)

/-- Claim C7: `setData` refuses a rename (returning false and leaving the
document untouched) when the proposed name fails validation or is already
a key of the document's mapping; for a valid fresh name it applies the
rename operation and returns true. -/
theorem claim_C7_setData (validate : String → Bool) (m : Model)
    (dsname newname : String) :
    ((validate newname = false ∨ (lookupDoc m.doc newname).isSome = true) →
      setData validate m dsname newname = (false, m)) ∧
    (validate newname = true → lookupDoc m.doc newname = none →
      setData validate m dsname newname =
        (true, { m with doc := applyRename m.doc dsname newname })) := by
  constructor
  · intro h
    rcases h with h | h <;> simp [setData, h]
  · intro h1 h2
    simp [setData, h1, h2]

/-- Witness for C7: renaming "a" onto the existing key "a" is a no-op
returning false; renaming "a" to the fresh valid name "b" mutates the
document and returns true. -/
theorem claim_C7_setData_witness :
    setData (fun s => !s.isEmpty) mC7w "a" "a" = (false, mC7w) ∧
    setData (fun s => !s.isEmpty) mC7w "a" "b" =
      (true, { mC7w with doc := applyRename mC7w.doc "a" "b" }) :=
  ⟨(claim_C7_setData (fun s => !s.isEmpty) mC7w "a" "a").1 (Or.inr (by decide)),
   (claim_C7_setData (fun s => !s.isEmpty) mC7w "a" "b").2 (by decide) (by decide)⟩

/-- Claim C8: on a node whose dataset name is no longer a key of the
document's mapping, the associated-dataset lookup and the tooltip both
yield an absent result; both are total functions, so the `KeyError` of
the source is always caught. -/
theorem claim_C8_missing (wrap : String → String) (pixHtml : Preview → String)
    (n : DatasetNode) (column : Nat)
    (h : lookupDoc n.doc (n.rowdata.headD "") = none) :
    n.dataset = none ∧ n.toolTip wrap pixHtml column = none := by
  constructor
  · unfold DatasetNode.dataset
    exact h
  · unfold DatasetNode.toolTip
    rw [h]

/-- Witness for C8 at a concrete vanished-dataset node. -/
theorem claim_C8_missing_witness :
    nodeC8w.dataset = none ∧
    nodeC8w.toolTip (fun s => s) (fun _ => "") 0 = none :=
  claim_C8_missing (fun s => s) (fun _ => "") nodeC8w 0 rfl

theorem keysNodupB_cons (c : STree) (cs : List STree)
    (h : keysNodupB (c :: cs) = true) :
    (∀ d ∈ cs, skey d ≠ skey c) ∧ keysNodupB cs = true := by
  unfold keysNodupB at h
  rw [Bool.and_eq_true] at h
  refine ⟨?_, h.2⟩
  intro d hd
  have := List.all_eq_true.1 h.1 d hd
  simpa using this

theorem find?_skey_self (cs : List STree) (h : keysNodupB cs = true)
    (n : STree) (hn : n ∈ cs) :
    cs.find? (fun o => skey o = skey n) = some n := by
  induction cs with
  | nil => cases hn
  | cons c rest ih =>
    have hc := keysNodupB_cons c rest h
    rcases List.mem_cons.1 hn with rfl | hmem
    · exact List.find?_cons_of_pos _ (by simp)
    · have hne : ¬(skey c = skey n) := fun he => (hc.1 n hmem) he.symm
      rw [List.find?_cons_of_neg _ (by simpa using hne)]
      exact ih hc.2 hmem

theorem wfL_mem (cs : List STree) (h : wfL cs = true) :
    ∀ c ∈ cs, wfS c = true := by
  induction cs with
  | nil => intro c hc; cases hc
  | cons a rest ih =>
    intro c hc
    unfold wfL at h
    rw [Bool.and_eq_true] at h
    rcases List.mem_cons.1 hc with rfl | hmem
    · exact h.1
    · exact ih h.2 c hmem

theorem wfS_node (hd : Nat) (k : NKind) (r : List String) (cs : List STree)
    (hw : wfS (.node hd k r cs) = true) :
    keysNodupB cs = true ∧ ∀ c ∈ cs, wfS c = true := by
  unfold wfS at hw
  rw [Bool.and_eq_true] at hw
  exact ⟨hw.1, wfL_mem cs hw.2⟩

theorem syncKids_self (olds news : List STree) (ctr : Nat)
    (hfind : ∀ n ∈ news, olds.find? (fun o => skey o = skey n) = some n)
    (hsync : ∀ n ∈ news, ∀ c, syncNode n n c = (n, c)) :
    syncKids olds news ctr = (news, ctr) := by
  induction news generalizing ctr with
  | nil => unfold syncKids; rfl
  | cons n ns ih =>
    unfold syncKids
    rw [hfind n (by simp)]
    simp only
    rw [hsync n (by simp) ctr]
    simp only
    rw [ih _ (fun d hd => hfind d (by simp [hd])) (fun d hd => hsync d (by simp [hd]))]

/-- Claim C9: syncing a well-formed display tree with itself (as
`refresh` does when the document is unchanged) returns the very same
tree — every node keeps its display-state handle — and allocates no
fresh handles. -/
theorem claim_C9_sync_self (t : STree) (ctr : Nat) (h : wfS t = true) :
    syncNode t t ctr = (t, ctr) := by
  match t with
  | .node hd k r cs =>
    have hw := wfS_node hd k r cs h
    have hkids : syncKids cs cs ctr = (cs, ctr) :=
      syncKids_self cs cs ctr
        (fun n hn => find?_skey_self cs hw.1 n hn)
        (fun n hn c => claim_C9_sync_self n c (hw.2 n hn))
    unfold syncNode
    rw [hkids]
termination_by sizeOf t
decreasing_by
  have hlt := List.sizeOf_lt_of_mem hn
  simp only [STree.node.sizeOf_spec]
  omega

/-- Witness for C9 at a concrete tree and counter. -/
theorem claim_C9_sync_self_witness : syncNode tC9w tC9w 5 = (tC9w, 5) :=
  claim_C9_sync_self tC9w 5 (by simp [tC9w, wfS, wfL, keysNodupB, skey])

theorem insertSorted_perm (c : TreeN) (cs : List TreeN) :
    List.Perm (insertSorted c cs) (c :: cs) := by
  induction cs with
  | nil => exact List.Perm.refl _
  | cons d rest ih =>
    unfold insertSorted
    split
    · exact List.Perm.refl _
    · exact (ih.cons d).trans (List.Perm.swap c d rest)

theorem mem_insertSorted (c x : TreeN) (cs : List TreeN) :
    x ∈ insertSorted c cs ↔ x = c ∨ x ∈ cs := by
  rw [(insertSorted_perm c cs).mem_iff]
  simp

theorem rowLt_head_le (a b : List String) (h : rowLt a b = true) :
    a.headD "" ≤ b.headD "" := by
  cases a with
  | nil =>
    cases b with
    | nil => simp [rowLt] at h
    | cons y ys =>
      show "" ≤ y
      by_cases hy : y = ""
      · simp [hy]
      · exact le_of_lt (String.lt_iff_toList_lt.2 (by
          cases hys : y.toList with
          | nil => exact absurd (by simpa [String.toList] using congrArg String.mk hys) hy
          | cons u us => exact List.Lex.nil))
  | cons x xs =>
    cases b with
    | nil => simp [rowLt] at h
    | cons y ys =>
      unfold rowLt at h
      split at h
      · next hxy => exact le_of_lt hxy
      · split at h
        · simp at h
        · next h1 h2 =>
          have : x = y := le_antisymm (le_of_not_lt h2) (le_of_not_lt h1)
          simp [this]

theorem rowLt_false_head_le (a b : List String) (h : rowLt a b = false) :
    b.headD "" ≤ a.headD "" := by
  cases a with
  | nil =>
    cases b with
    | nil => exact le_refl _
    | cons y ys => simp [rowLt] at h
  | cons x xs =>
    cases b with
    | nil =>
      show "" ≤ x
      by_cases hx : x = ""
      · simp [hx]
      · exact le_of_lt (String.lt_iff_toList_lt.2 (by
          cases hxs : x.toList with
          | nil => exact absurd (by simpa [String.toList] using congrArg String.mk hxs) hx
          | cons u us => exact List.Lex.nil))
    | cons y ys =>
      unfold rowLt at h
      split at h
      · simp at h
      · split at h
        · next hyx => exact le_of_lt hyx
        · next h1 h2 =>
          have : x = y := le_antisymm (le_of_not_lt h2) (le_of_not_lt h1)
          simp [this]

theorem insertSorted_pairwise (c : TreeN) (cs : List TreeN)
    (h : cs.Pairwise (fun a b => a.rowdata.headD "" ≤ b.rowdata.headD "")) :
    (insertSorted c cs).Pairwise
      (fun a b => a.rowdata.headD "" ≤ b.rowdata.headD "") := by
  induction cs with
  | nil => simp [insertSorted]
  | cons d rest ih =>
    rw [List.pairwise_cons] at h
    unfold insertSorted
    split
    · next hlt =>
      rw [List.pairwise_cons]
      refine ⟨?_, List.pairwise_cons.2 h⟩
      intro e he
      rcases List.mem_cons.1 he with rfl | hmem
      · exact rowLt_head_le _ _ hlt
      · exact le_trans (rowLt_head_le _ _ hlt) (h.1 e hmem)
    · next hnlt =>
      rw [List.pairwise_cons]
      refine ⟨?_, ih h.2⟩
      intro e he
      rcases (mem_insertSorted c e rest).1 he with rfl | hmem
      · exact rowLt_false_head_le _ _ (Bool.not_eq_true _ ▸ Bool.of_not_eq_true hnlt)
      · exact h.1 e hmem

theorem insertChild_children (t c : TreeN) :
    (insertChild t c).children = insertSorted c t.children := rfl

theorem grpNoneFold_children_perm (m : Model)
    (doc : List (String × Dataset)) (t : TreeN) :
    List.Perm
      (doc.foldl (fun tree p =>
        let child := mkDsNode p.1 p.2 colsNone
        if datasetFilterOut m p.2 child then tree else insertChild tree child)
        t).children
      ((doc.filter (fun p =>
          !datasetFilterOut m p.2 (mkDsNode p.1 p.2 colsNone))).map
        (fun p => mkDsNode p.1 p.2 colsNone) ++ t.children) := by
  induction doc generalizing t with
  | nil => simp
  | cons p rest ih =>
    simp only [List.foldl_cons, List.filter_cons]
    by_cases hp : datasetFilterOut m p.2 (mkDsNode p.1 p.2 colsNone)
    · rw [if_pos hp]
      simpa [hp] using ih t
    · rw [if_neg hp]
      have h2 := ih (insertChild t (mkDsNode p.1 p.2 colsNone))
      rw [insertChild_children] at h2
      simp only [hp, Bool.not_false, List.map_cons, List.cons_append]
      exact h2.trans
        ((((insertSorted_perm _ t.children).append_left _).trans
          List.perm_middle))

theorem grpNoneFold_children_sorted (m : Model)
    (doc : List (String × Dataset)) (t : TreeN)
    (ht : t.children.Pairwise (fun a b => a.rowdata.headD "" ≤ b.rowdata.headD "")) :
    ((doc.foldl (fun tree p =>
        let child := mkDsNode p.1 p.2 colsNone
        if datasetFilterOut m p.2 child then tree else insertChild tree child)
        t).children).Pairwise
      (fun a b => a.rowdata.headD "" ≤ b.rowdata.headD "") := by
  induction doc generalizing t with
  | nil => exact ht
  | cons p rest ih =>
    simp only [List.foldl_cons]
    by_cases hp : datasetFilterOut m p.2 (mkDsNode p.1 p.2 colsNone)
    · rw [if_pos hp]
      exact ih t ht
    · rw [if_neg hp]
      refine ih _ ?_
      rw [insertChild_children]
      exact insertSorted_pairwise _ _ ht

/-- Claim C3: in grouping mode "none" the built tree is flat — every root
child is a leaf `DatasetNode` — there is exactly one child per dataset
surviving the filter (as a permutation of the filtered document), and the
children are sorted ascending by dataset name (the first display
column). -/
theorem claim_C3_groupNone (m : Model) :
    ((makeGrpTreeNone m).children.all
        (fun c => c.kind == NKind.dsnode && c.children.isEmpty) = true) ∧
    List.Perm ((makeGrpTreeNone m).children.map (fun c => c.rowdata.headD ""))
      ((m.doc.filter (fun p =>
          !datasetFilterOut m p.2 (mkDsNode p.1 p.2 colsNone))).map Prod.fst) ∧
    (makeGrpTreeNone m).children.Pairwise
      (fun a b => a.rowdata.headD "" ≤ b.rowdata.headD "") := by
  have hperm := grpNoneFold_children_perm m m.doc
    (.node .tm ["Dataset", "Size", "Type", "File"] [])
  rw [show (TreeN.node .tm ["Dataset", "Size", "Type", "File"] []).children = []
      from rfl, List.append_nil] at hperm
  refine ⟨?_, ?_, ?_⟩
  · rw [List.all_eq_true]
    intro c hc
    have hmem := hperm.mem_iff.1 hc
    rcases List.mem_map.1 hmem with ⟨p, _, hpeq⟩
    rw [← hpeq]
    rfl
  · have := hperm.map (fun c => c.rowdata.headD "")
    refine this.trans ?_
    rw [List.map_map]
    apply List.Perm.of_eq
    apply List.map_congr_left
    intro p _
    rfl
  · exact grpNoneFold_children_sorted m m.doc _ List.Pairwise.nil

theorem namedCnt_insertSorted (c : TreeN) (cs : List TreeN) (n : String) :
    namedCnt (insertSorted c cs) n =
      namedCnt cs n + (if c.rowdata.headD "" = n then 1 else 0) := by
  unfold namedCnt
  rw [(insertSorted_perm c cs).countP_eq, List.countP_cons]
  simp

theorem lookupG_insertGrp_eq (acc : GrpAcc) (g : String) (c : TreeN) :
    lookupG (insertGrp acc g c) g =
      some (insertSorted c ((lookupG acc g).getD [])) := by
  induction acc with
  | nil => simp [insertGrp, lookupG, insertSorted]
  | cons q rest ih =>
    match q with
    | (k, cs) =>
      by_cases hk : k = g
      · subst hk
        simp [insertGrp, lookupG]
      · simp [insertGrp, lookupG, hk, ih]

theorem lookupG_insertGrp_ne (acc : GrpAcc) (g g' : String) (c : TreeN)
    (h : g' ≠ g) :
    lookupG (insertGrp acc g c) g' = lookupG acc g' := by
  have hgg : g ≠ g' := Ne.symm h
  induction acc with
  | nil => simp [insertGrp, lookupG, hgg]
  | cons q rest ih =>
    match q with
    | (k, cs) =>
      by_cases hk : k = g
      · subst hk
        simp [insertGrp, lookupG, hgg]
      · by_cases hk' : k = g'
        · subst hk'
          simp [insertGrp, lookupG, hk]
        · simp [insertGrp, lookupG, hk, hk', ih]

theorem foldl_insertGrp_lookup_notmem (grps : List String) (c : TreeN)
    (acc : GrpAcc) (g : String) (hg : g ∉ grps) :
    lookupG (grps.foldl (fun a k => insertGrp a k c) acc) g = lookupG acc g := by
  induction grps generalizing acc with
  | nil => rfl
  | cons k rest ih =>
    simp only [List.foldl_cons]
    have hgk : g ≠ k := fun he => hg (he ▸ List.mem_cons_self k rest)
    rw [ih _ (fun hm => hg (List.mem_cons_of_mem k hm)),
      lookupG_insertGrp_ne acc k g c hgk]

theorem foldl_insertGrp_lookup_mem (grps : List String) (c : TreeN)
    (acc : GrpAcc) (g : String) (hg : g ∈ grps) (hnd : grps.Nodup) :
    lookupG (grps.foldl (fun a k => insertGrp a k c) acc) g =
      some (insertSorted c ((lookupG acc g).getD [])) := by
  induction grps generalizing acc with
  | nil => cases hg
  | cons k rest ih =>
    simp only [List.foldl_cons]
    rw [List.nodup_cons] at hnd
    rcases List.mem_cons.1 hg with rfl | hmem
    · rw [foldl_insertGrp_lookup_notmem rest c _ g hnd.1,
        lookupG_insertGrp_eq]
    · rw [ih _ hmem hnd.2]
      have hgk : g ≠ k := fun he => hnd.1 (he ▸ hmem)
      rw [lookupG_insertGrp_ne acc k g c hgk]

theorem buildAcc_groupCnt (m : Model) (colitems : List Col)
    (grouper : Dataset → List String)
    (hgnd : ∀ ds, (grouper ds).Nodup)
    (doc : List (String × Dataset)) (acc : GrpAcc) (g n : String) :
    groupCnt (buildAcc m colitems grouper doc acc) g n =
      groupCnt acc g n +
        doc.countP (fun p =>
          !datasetFilterOut m p.2 (mkDsNode p.1 p.2 colitems) &&
          ((mkDsNode p.1 p.2 colitems).rowdata.headD "" == n) &&
          (grouper p.2).contains g) := by
  induction doc generalizing acc with
  | nil => simp [buildAcc]
  | cons p rest ih =>
    rw [buildAcc]
    simp only [List.countP_cons]
    by_cases hp : datasetFilterOut m p.2 (mkDsNode p.1 p.2 colitems)
    · rw [if_pos hp, ih]
      simp [hp]
    · rw [if_neg hp]
      rw [ih]
      by_cases hgmem : g ∈ grouper p.2
      · have hlk := foldl_insertGrp_lookup_mem (grouper p.2)
          (mkDsNode p.1 p.2 colitems) acc g hgmem (hgnd p.2)
        unfold groupCnt
        rw [hlk]
        simp only [Option.getD_some]
        rw [namedCnt_insertSorted]
        have hcontains : (grouper p.2).contains g = true :=
          List.elem_iff.2 hgmem
        simp only [hp, Bool.not_false, Bool.true_and, hcontains,
          Bool.and_true, beq_iff_eq]
        omega
      · have hlk := foldl_insertGrp_lookup_notmem (grouper p.2)
          (mkDsNode p.1 p.2 colitems) acc g hgmem
        unfold groupCnt
        rw [hlk]
        simp [hgmem]

theorem lookupG_none_iff : ∀ (acc : GrpAcc) (g : String),
    lookupG acc g = none ↔ g ∉ acc.map Prod.fst := by
  intro acc
  induction acc with
  | nil => intro g; simp [lookupG]
  | cons q rest ih =>
    intro g
    match q with
    | (k, cs) =>
      by_cases hk : k = g
      · subst hk
        simp [lookupG]
      · simp [lookupG, hk, ih g, Ne.symm hk]

theorem insertGrp_keys (acc : GrpAcc) (g : String) (c : TreeN) :
    (insertGrp acc g c).map Prod.fst =
      if (lookupG acc g).isSome then acc.map Prod.fst
      else acc.map Prod.fst ++ [g] := by
  induction acc with
  | nil => simp [insertGrp, lookupG]
  | cons q rest ih =>
    match q with
    | (k, cs) =>
      by_cases hk : k = g
      · subst hk
        simp [insertGrp, lookupG]
      · simp only [insertGrp, if_neg hk, List.map_cons, lookupG, ih]
        split <;> simp

theorem insertGrp_keys_nodup (acc : GrpAcc) (g : String) (c : TreeN)
    (h : (acc.map Prod.fst).Nodup) :
    ((insertGrp acc g c).map Prod.fst).Nodup := by
  rw [insertGrp_keys]
  split
  · exact h
  · next hnone =>
    have hg : g ∉ acc.map Prod.fst :=
      (lookupG_none_iff acc g).1 (Option.not_isSome_iff_eq_none.1 (by simpa using hnone))
    simp [List.nodup_append, h, hg]

theorem foldl_insertGrp_keys_nodup : ∀ (grps : List String) (c : TreeN) (acc : GrpAcc),
    (acc.map Prod.fst).Nodup →
    (((grps.foldl (fun a k => insertGrp a k c) acc)).map Prod.fst).Nodup := by
  intro grps
  induction grps with
  | nil => intro c acc h; exact h
  | cons k rest ih => intro c acc h; exact ih c _ (insertGrp_keys_nodup acc k c h)

theorem buildAcc_keys_nodup (m : Model) (ci : List Col)
    (gr : Dataset → List String) :
    ∀ (doc : List (String × Dataset)) (acc : GrpAcc),
    (acc.map Prod.fst).Nodup →
    ((buildAcc m ci gr doc acc).map Prod.fst).Nodup := by
  intro doc
  induction doc with
  | nil => intro acc h; exact h
  | cons p rest ih =>
    intro acc h
    rw [buildAcc]
    by_cases hp : datasetFilterOut m p.2 (mkDsNode p.1 p.2 ci)
    · rw [if_pos hp]
      exact ih acc h
    · rw [if_neg hp]
      exact ih _ (foldl_insertGrp_keys_nodup _ _ acc h)

theorem foldl_insertChild_children_perm : ∀ (nl : List TreeN) (t : TreeN),
    List.Perm (nl.foldl insertChild t).children (nl ++ t.children) := by
  intro nl
  induction nl with
  | nil => intro t; simp
  | cons c rest ih =>
    intro t
    simp only [List.foldl_cons, List.cons_append]
    refine (ih _).trans ?_
    rw [insertChild_children]
    exact (((insertSorted_perm c t.children).append_left rest)).trans List.perm_middle

theorem treeFromList_children_perm (nl : List TreeN) (rd : List String) :
    List.Perm (treeFromList nl rd).children nl := by
  have h := foldl_insertChild_children_perm nl (.node .tm rd [])
  simpa [treeFromList, TreeN.children] using h

theorem assoc_sum_eq_lookup : ∀ (acc : GrpAcc), (acc.map Prod.fst).Nodup →
    ∀ (g n : String),
    (acc.map (fun q => if q.1 = g then namedCnt q.2 n else 0)).sum =
      namedCnt ((lookupG acc g).getD []) n := by
  intro acc
  induction acc with
  | nil => intro _ g n; simp [lookupG, namedCnt]
  | cons q rest ih =>
    intro hnd g n
    match q with
    | (k, cs) =>
      rw [List.map_cons, List.nodup_cons] at hnd
      rw [List.map_cons, List.sum_cons]
      by_cases hk : k = g
      · subst hk
        have hrest :
            (rest.map (fun q => if q.1 = k then namedCnt q.2 n else 0)).sum = 0 := by
          apply List.sum_eq_zero
          intro x hx
          rcases List.mem_map.1 hx with ⟨q0, hq0, rfl⟩
          have hmm : q0.1 ∈ rest.map Prod.fst := List.mem_map_of_mem Prod.fst hq0
          have hne : q0.1 ≠ k := fun he => hnd.1 (he ▸ hmm)
          simp [hne]
        rw [hrest]
        simp [lookupG]
      · rw [if_neg hk, ih hnd.2 g n]
        simp [lookupG, hk]

theorem assoc_countP_key : ∀ (acc : GrpAcc), (acc.map Prod.fst).Nodup →
    ∀ g : String,
    acc.countP (fun q => q.1 == g) = if (lookupG acc g).isSome then 1 else 0 := by
  intro acc
  induction acc with
  | nil => intro _ g; simp [lookupG]
  | cons q rest ih =>
    intro hnd g
    match q with
    | (k, cs) =>
      rw [List.map_cons, List.nodup_cons] at hnd
      rw [List.countP_cons]
      by_cases hk : k = g
      · subst hk
        have hrest : rest.countP (fun q => q.1 == k) = 0 := by
          rw [List.countP_eq_zero]
          intro q0 hq0
          simp only [beq_iff_eq]
          have hmm : q0.1 ∈ rest.map Prod.fst := List.mem_map_of_mem Prod.fst hq0
          exact fun he => hnd.1 (he ▸ hmm)
        simp [lookupG, hrest]
      · rw [ih hnd.2 g]
        simp [lookupG, hk]

theorem countP_key_unique : ∀ (doc : List (String × Dataset)),
    ∀ (name : String) (ds : Dataset),
    (doc.map Prod.fst).Nodup → (name, ds) ∈ doc →
    ∀ (Q : String × Dataset → Bool),
    doc.countP (fun p => (p.1 == name) && Q p) = if Q (name, ds) then 1 else 0 := by
  intro doc
  induction doc with
  | nil => intro name ds _ hmem; cases hmem
  | cons p rest ih =>
    intro name ds hnd hmem Q
    rw [List.map_cons, List.nodup_cons] at hnd
    rw [List.countP_cons]
    rcases List.mem_cons.1 hmem with heq | hmem2
    · have hp1 : p.1 = name := congrArg Prod.fst heq.symm
      have hrest : rest.countP (fun p => (p.1 == name) && Q p) = 0 := by
        rw [List.countP_eq_zero]
        intro q hq
        have hmm : q.1 ∈ rest.map Prod.fst := List.mem_map_of_mem Prod.fst hq
        have hne : q.1 ≠ name := by
          intro he
          apply hnd.1
          rw [hp1, ← he]
          exact hmm
        simp [hne]
      rw [hrest, ← heq]
      simp
    · have hp1 : p.1 ≠ name :=
        fun he => hnd.1 (he ▸ List.mem_map_of_mem Prod.fst hmem2)
      rw [ih name ds hnd.2 hmem2 Q]
      simp [hp1]

theorem grpChildCnt_makeGrpTree (m : Model) (ct : List String) (ci : List Col)
    (gr : Dataset → List String) (kd : NKind)
    (hgnd : ∀ ds, (gr ds).Nodup)
    (hnd : (m.doc.map Prod.fst).Nodup)
    (hhead : ∀ p : String × Dataset, (mkDsNode p.1 p.2 ci).rowdata.headD "" = p.1)
    (name : String) (ds : Dataset) (hmem : (name, ds) ∈ m.doc) (g : String) :
    grpChildCnt (makeGrpTree m ct ci gr kd) g name =
      if (!datasetFilterOut m ds (mkDsNode name ds ci) && (gr ds).contains g) = true
      then 1 else 0 := by
  have hkeys : ((buildAcc m ci gr m.doc []).map Prod.fst).Nodup :=
    buildAcc_keys_nodup m ci gr m.doc [] (by simp)
  have hperm := treeFromList_children_perm
    ((buildAcc m ci gr m.doc []).map (fun q => TreeN.node kd [q.1] q.2)) ct
  unfold grpChildCnt
  simp only [makeGrpTree]
  rw [(hperm.map
    (fun gn => if gn.rowdata = [g] then namedCnt gn.children name else 0)).sum_eq]
  rw [List.map_map]
  have hfeq :
      ((fun gn => if gn.rowdata = [g] then namedCnt gn.children name else 0) ∘
        (fun q : String × List TreeN => TreeN.node kd [q.1] q.2)) =
      fun q : String × List TreeN => if q.1 = g then namedCnt q.2 name else 0 := by
    funext q
    by_cases hq : q.1 = g <;> simp [TreeN.rowdata, TreeN.children, hq]
  rw [hfeq, assoc_sum_eq_lookup _ hkeys g name]
  have hcnt := buildAcc_groupCnt m ci gr hgnd m.doc [] g name
  unfold groupCnt at hcnt
  rw [hcnt]
  have hzero : namedCnt ((lookupG [] g).getD []) name = 0 := by
    simp [lookupG, namedCnt]
  rw [hzero, Nat.zero_add]
  have hfeq2 :
      (fun p : String × Dataset =>
        !datasetFilterOut m p.2 (mkDsNode p.1 p.2 ci) &&
        ((mkDsNode p.1 p.2 ci).rowdata.headD "" == name) &&
        (gr p.2).contains g) =
      fun p : String × Dataset =>
        (p.1 == name) &&
        (!datasetFilterOut m p.2 (mkDsNode p.1 p.2 ci) && (gr p.2).contains g) := by
    funext p
    rw [hhead p, Bool.and_assoc, Bool.and_left_comm]
  rw [hfeq2, countP_key_unique m.doc name ds hnd hmem _]

theorem lookupG_isSome_of_cnt (acc : GrpAcc) (g n : String)
    (h : namedCnt ((lookupG acc g).getD []) n ≠ 0) :
    (lookupG acc g).isSome = true := by
  cases hl : lookupG acc g with
  | none =>
    rw [hl] at h
    simp [namedCnt] at h
  | some cs => rfl

theorem grpNodeCnt_makeGrpTree (m : Model) (ct : List String) (ci : List Col)
    (gr : Dataset → List String) (kd : NKind)
    (hnd : (m.doc.map Prod.fst).Nodup) (g : String) :
    grpNodeCnt (makeGrpTree m ct ci gr kd) g =
      if (lookupG (buildAcc m ci gr m.doc []) g).isSome then 1 else 0 := by
  have hkeys : ((buildAcc m ci gr m.doc []).map Prod.fst).Nodup :=
    buildAcc_keys_nodup m ci gr m.doc [] (by simp)
  have hperm := treeFromList_children_perm
    ((buildAcc m ci gr m.doc []).map (fun q => TreeN.node kd [q.1] q.2)) ct
  unfold grpNodeCnt
  simp only [makeGrpTree]
  rw [hperm.countP_eq, List.countP_map]
  have hfeq :
      ((fun gn : TreeN => gn.rowdata == [g]) ∘
        (fun q : String × List TreeN => TreeN.node kd [q.1] q.2)) =
      fun q : String × List TreeN => q.1 == g := by
    funext q
    simp [TreeN.rowdata]
  rw [hfeq, assoc_countP_key _ hkeys g]

theorem mem_insortStr : ∀ (s x : String) (l : List String),
    x ∈ insortStr s l ↔ x = s ∨ x ∈ l := by
  intro s x l
  induction l with
  | nil => simp [insortStr]
  | cons t ts ih =>
    unfold insortStr
    split
    · simp
    · split
      · next hlt heq =>
        subst heq
        simp
      · simp [ih]
        tauto

theorem insortStr_pairwise : ∀ (s : String) (l : List String),
    l.Pairwise (· < ·) → (insortStr s l).Pairwise (· < ·) := by
  intro s l
  induction l with
  | nil => intro _; simp [insortStr]
  | cons t ts ih =>
    intro h
    rw [List.pairwise_cons] at h
    unfold insortStr
    split
    · next hlt =>
      rw [List.pairwise_cons]
      refine ⟨?_, List.pairwise_cons.2 h⟩
      intro e he
      rcases List.mem_cons.1 he with rfl | hmem
      · exact hlt
      · exact lt_trans hlt (h.1 e hmem)
    · split
      · next heq => exact List.pairwise_cons.2 h
      · next hnlt hne =>
        rw [List.pairwise_cons]
        refine ⟨?_, ih h.2⟩
        intro e he
        rcases (mem_insortStr s e ts).1 he with rfl | hmem
        · rcases lt_trichotomy t e with hc | hc | hc
          · exact hc
          · exact absurd hc.symm hne
          · exact absurd hc hnlt
        · exact h.1 e hmem

theorem sortDedup_pairwise (l : List String) :
    (sortDedup l).Pairwise (· < ·) := by
  unfold sortDedup
  suffices h : ∀ (acc : List String), acc.Pairwise (· < ·) →
      (l.foldl (fun acc s => insortStr s acc) acc).Pairwise (· < ·) by
    exact h [] List.Pairwise.nil
  induction l with
  | nil => intro acc hacc; exact hacc
  | cons t ts ih =>
    intro acc hacc
    exact ih _ (insortStr_pairwise t acc hacc)

theorem sortDedup_nodup (l : List String) : (sortDedup l).Nodup :=
  (sortDedup_pairwise l).imp ne_of_lt

theorem mem_sortDedup (l : List String) (x : String) :
    x ∈ sortDedup l ↔ x ∈ l := by
  unfold sortDedup
  suffices h : ∀ (acc : List String),
      (x ∈ l.foldl (fun acc s => insortStr s acc) acc ↔ x ∈ acc ∨ x ∈ l) by
    simpa using h []
  induction l with
  | nil => intro acc; simp
  | cons t ts ih =>
    intro acc
    simp only [List.foldl_cons]
    rw [ih (insortStr t acc), mem_insortStr]
    simp
    tauto

theorem getgrpTags_nodup (ds : Dataset) : (getgrpTags ds).Nodup := by
  unfold getgrpTags
  split
  · simp
  · exact sortDedup_nodup ds.tags

theorem mem_getgrpTags (ds : Dataset) (t : String) (ht : t ∈ ds.tags) :
    t ∈ getgrpTags ds := by
  unfold getgrpTags
  split
  · next he => rw [he] at ht; cases ht
  · exact (mem_sortDedup ds.tags t).2 ht

theorem mem_insertGrp_children : ∀ (acc : GrpAcc) (g : String) (ch : TreeN),
    ∀ q ∈ insertGrp acc g ch, ∀ c ∈ q.2,
      c = ch ∨ ∃ q0 ∈ acc, c ∈ q0.2 := by
  intro acc
  induction acc with
  | nil =>
    intro g ch q hq c hc
    simp [insertGrp] at hq
    subst hq
    simp at hc
    exact Or.inl hc
  | cons p rest ih =>
    intro g ch q hq c hc
    match p with
    | (k, cs) =>
      by_cases hk : k = g
      · subst hk
        simp only [insertGrp, if_pos rfl] at hq
        rcases List.mem_cons.1 hq with rfl | hq2
        · rcases (mem_insertSorted ch c cs).1 hc with rfl | hmem
          · exact Or.inl rfl
          · exact Or.inr ⟨(k, cs), List.mem_cons_self _ _, hmem⟩
        · exact Or.inr ⟨q, List.mem_cons_of_mem _ hq2, hc⟩
      · simp only [insertGrp, if_neg hk] at hq
        rcases List.mem_cons.1 hq with rfl | hq2
        · exact Or.inr ⟨(k, cs), List.mem_cons_self _ _, hc⟩
        · rcases ih g ch q hq2 c hc with h | ⟨q0, hq0, hcq⟩
          · exact Or.inl h
          · exact Or.inr ⟨q0, List.mem_cons_of_mem _ hq0, hcq⟩

theorem foldl_insertGrp_shape (R : TreeN → Prop) :
    ∀ (grps : List String) (ch : TreeN) (acc : GrpAcc),
    R ch → (∀ q ∈ acc, ∀ c ∈ q.2, R c) →
    ∀ q ∈ grps.foldl (fun a k => insertGrp a k ch) acc, ∀ c ∈ q.2, R c := by
  intro grps
  induction grps with
  | nil => intro ch acc _ hacc; exact hacc
  | cons k rest ih =>
    intro ch acc hch hacc
    simp only [List.foldl_cons]
    refine ih ch _ hch ?_
    intro q hq c hc
    rcases mem_insertGrp_children acc k ch q hq c hc with rfl | ⟨q0, hq0, hcq⟩
    · exact hch
    · exact hacc q0 hq0 c hcq

theorem buildAcc_shape (R : TreeN → Prop) (m : Model) (ci : List Col)
    (gr : Dataset → List String)
    (hmk : ∀ (n : String) (d : Dataset), R (mkDsNode n d ci)) :
    ∀ (doc : List (String × Dataset)) (acc : GrpAcc),
    (∀ q ∈ acc, ∀ c ∈ q.2, R c) →
    ∀ q ∈ buildAcc m ci gr doc acc, ∀ c ∈ q.2, R c := by
  intro doc
  induction doc with
  | nil => intro acc hacc; exact hacc
  | cons p rest ih =>
    intro acc hacc
    rw [buildAcc]
    by_cases hp : datasetFilterOut m p.2 (mkDsNode p.1 p.2 ci)
    · rw [if_pos hp]
      exact ih acc hacc
    · rw [if_neg hp]
      exact ih _ (foldl_insertGrp_shape R _ _ acc (hmk p.1 p.2) hacc)

theorem makeGrpTree_children_dsnode (m : Model) (ct : List String) (ci : List Col)
    (gr : Dataset → List String) (kd : NKind) :
    (makeGrpTree m ct ci gr kd).children.all
      (fun gn => gn.children.all (fun c => c.kind == NKind.dsnode)) = true := by
  have hperm := treeFromList_children_perm
    ((buildAcc m ci gr m.doc []).map (fun q => TreeN.node kd [q.1] q.2)) ct
  rw [List.all_eq_true]
  intro gn hgn
  have hmem := hperm.mem_iff.1 hgn
  rcases List.mem_map.1 hmem with ⟨q, hq, rfl⟩
  rw [List.all_eq_true]
  intro c hc
  have hshape := buildAcc_shape (fun c => c.kind = .dsnode) m ci gr
    (fun n d => rfl) m.doc [] (by intro q hq0; cases hq0) q hq c hc
  simp [hshape]

theorem datasetFilterOut_false_of_nofilter (m : Model) (ds : Dataset)
    (node : TreeN) (hf : m.filter = "") (hd : m.filterdims = none)
    (ht : m.filterdtype = none) :
    datasetFilterOut m ds node = false := by
  rw [filterOut_false_iff]
  refine ⟨?_, ?_, ?_⟩ <;> simp [dimsOK, dtypeOK, textKeep, hf, hd, ht]

theorem buildAcc_lookup_isSome (m : Model) (ci : List Col)
    (gr : Dataset → List String) (hgnd : ∀ d, (gr d).Nodup)
    (hhead : ∀ p : String × Dataset, (mkDsNode p.1 p.2 ci).rowdata.headD "" = p.1)
    (name : String) (ds : Dataset) (hmem : (name, ds) ∈ m.doc) (g : String)
    (hpass : datasetFilterOut m ds (mkDsNode name ds ci) = false)
    (hg : g ∈ gr ds) :
    (lookupG (buildAcc m ci gr m.doc []) g).isSome = true := by
  apply lookupG_isSome_of_cnt _ g name
  have hcnt := buildAcc_groupCnt m ci gr hgnd m.doc [] g name
  unfold groupCnt at hcnt
  rw [hcnt]
  have hzero : namedCnt ((lookupG ([] : GrpAcc) g).getD []) name = 0 := by
    simp [lookupG, namedCnt]
  rw [hzero, Nat.zero_add]
  have hpos : 0 < m.doc.countP (fun p =>
      !datasetFilterOut m p.2 (mkDsNode p.1 p.2 ci) &&
      ((mkDsNode p.1 p.2 ci).rowdata.headD "" == name) &&
      (gr p.2).contains g) := by
    rw [List.countP_pos]
    refine ⟨(name, ds), hmem, ?_⟩
    rw [hhead (name, ds)]
    simp only [hpass, Bool.not_false, Bool.true_and, beq_self_eq_true,
      Bool.and_true, Bool.true_and]
    exact List.elem_iff.2 hg
  omega

/-- Claim C2: in grouping mode "tags" (empty text filter, no
dimension/type restriction, distinct dataset names), each dataset appears
exactly once under each group labelled with one of its tags (each tag of
the dataset is one of the group labels), a dataset with no tags goes
exactly once under the single sentinel group "None" (and nowhere else),
and the rows under the group nodes are `DatasetNode`s. -/
theorem claim_C2_tags_grouping (m : Model) (name : String) (ds : Dataset)
    (hf : m.filter = "") (hd : m.filterdims = none) (ht : m.filterdtype = none)
    (hnd : (m.doc.map Prod.fst).Nodup) (hmem : (name, ds) ∈ m.doc) :
    (∀ t ∈ ds.tags, t ∈ getgrpTags ds) ∧
    (ds.tags = [] → getgrpTags ds = ["None"]) ∧
    (∀ g : String, grpChildCnt (makeGrpTreeTags m) g name =
      if g ∈ getgrpTags ds then 1 else 0) ∧
    (∀ g ∈ getgrpTags ds, grpNodeCnt (makeGrpTreeTags m) g = 1) ∧
    ((makeGrpTreeTags m).children.all
      (fun gn => gn.children.all (fun c => c.kind == NKind.dsnode)) = true) := by
  have hgnd : ∀ d : Dataset, (getgrpTags d).Nodup := getgrpTags_nodup
  have hhead : ∀ p : String × Dataset,
      (mkDsNode p.1 p.2 colsTags).rowdata.headD "" = p.1 := fun p => rfl
  have hpass : datasetFilterOut m ds (mkDsNode name ds colsTags) = false :=
    datasetFilterOut_false_of_nofilter m ds _ hf hd ht
  refine ⟨mem_getgrpTags ds, ?_, ?_, ?_, ?_⟩
  · intro he
    unfold getgrpTags
    rw [if_pos he]
  · intro g
    have h1 := grpChildCnt_makeGrpTree m ["Dataset", "Size", "Type", "Filename"]
      colsTags getgrpTags .tm hgnd hnd hhead name ds hmem g
    rw [show makeGrpTreeTags m =
      makeGrpTree m ["Dataset", "Size", "Type", "Filename"] colsTags getgrpTags .tm
      from rfl]
    rw [h1, hpass]
    by_cases hg : g ∈ getgrpTags ds
    · rw [if_pos hg]
      rw [if_pos]
      simp only [Bool.not_false, Bool.true_and]
      exact List.elem_iff.2 hg
    · rw [if_neg hg]
      rw [if_neg]
      intro hcon
      rw [Bool.and_eq_true] at hcon
      exact hg (List.elem_iff.1 hcon.2)
  · intro g hg
    have h2 := grpNodeCnt_makeGrpTree m
      ["Dataset", "Size", "Type", "Filename"] colsTags getgrpTags .tm hnd g
    rw [show makeGrpTreeTags m =
      makeGrpTree m ["Dataset", "Size", "Type", "Filename"] colsTags getgrpTags .tm
      from rfl]
    rw [h2, if_pos]
    exact buildAcc_lookup_isSome m colsTags getgrpTags hgnd hhead
      name ds hmem g hpass hg
  · exact makeGrpTree_children_dsnode m ["Dataset", "Size", "Type", "Filename"]
      colsTags getgrpTags .tm

/-- Witness for C2: dataset "x" (tags {a, b}) appears once under "a" and
once under "b" and not under "None"; dataset "y" (no tags) appears once
under the sentinel "None". -/
theorem claim_C2_tags_grouping_witness :
    (grpChildCnt (makeGrpTreeTags mC2w) "a" "x" =
      if "a" ∈ getgrpTags dsC2w then 1 else 0) ∧
    (grpChildCnt (makeGrpTreeTags mC2w) "b" "x" =
      if "b" ∈ getgrpTags dsC2w then 1 else 0) ∧
    (grpChildCnt (makeGrpTreeTags mC2w) "None" "x" =
      if "None" ∈ getgrpTags dsC2w then 1 else 0) ∧
    (grpChildCnt (makeGrpTreeTags mC2w) "None" "y" =
      if "None" ∈ getgrpTags dsC2n then 1 else 0) :=
  ⟨(claim_C2_tags_grouping mC2w "x" dsC2w rfl rfl rfl (by decide)
      (by simp [mC2w])).2.2.1 "a",
   (claim_C2_tags_grouping mC2w "x" dsC2w rfl rfl rfl (by decide)
      (by simp [mC2w])).2.2.1 "b",
   (claim_C2_tags_grouping mC2w "x" dsC2w rfl rfl rfl (by decide)
      (by simp [mC2w])).2.2.1 "None",
   (claim_C2_tags_grouping mC2w "y" dsC2n rfl rfl rfl (by decide)
      (by simp [mC2w])).2.2.1 "None"⟩

/-- Counterexample to claim C10 as stated: the filter text occurs in the
linked file path but not in the name, size, type or tags, yet the
dataset is excluded from the tags-mode tree as well — the column tested
is the basename of the linked file, not the full path. -/
theorem claim_C10_counterexample :
    strFind (datasetLinkFile dsC10) mC10.filter = true ∧
    strFind "x" mC10.filter = false ∧
    strFind dsC10.userSize mC10.filter = false ∧
    strFind dsC10.dstype mC10.filter = false ∧
    dsC10.tags = [] ∧
    treeHasDsNamed (makeGrpTreeTags mC10) "x" = false := by decide

/-- Claim C10 as amended: with the filter text occurring in the linked
file's BASENAME (the displayed link-file column) but in no other column
and no tag, the dataset is rejected by the filename-mode filter (whose
columns omit the link file) and hence absent from that tree, while the
tags-mode filter (whose columns include the link-file basename) keeps it
and its groups each carry one row for it. -/
theorem claim_C10_filename_columns (m : Model) (name : String) (ds : Dataset)
    (hlink : strFind (basename (datasetLinkFile ds)) m.filter = true)
    (hname : strFind name m.filter = false)
    (hsize : strFind ds.userSize m.filter = false)
    (htype : strFind ds.dstype m.filter = false)
    (htags : ∀ t ∈ ds.tags, strFind t m.filter = false)
    (hfne : m.filter ≠ "")
    (hdims : dimsOK m ds = true) (hdt : dtypeOK m ds = true)
    (hnd : (m.doc.map Prod.fst).Nodup) (hmem : (name, ds) ∈ m.doc) :
    datasetFilterOut m ds (mkDsNode name ds colsFilename) = true ∧
    datasetFilterOut m ds (mkDsNode name ds colsTags) = false ∧
    (∀ g, grpChildCnt (makeGrpTreeFilename m) g name = 0) ∧
    (∀ g, grpChildCnt (makeGrpTreeTags m) g name =
      if g ∈ getgrpTags ds then 1 else 0) := by
  have hrowF : (mkDsNode name ds colsFilename).rowdata =
      [name, ds.userSize, ds.dstype] := rfl
  have hrowT : (mkDsNode name ds colsTags).rowdata =
      [name, ds.userSize, ds.dstype, basename (datasetLinkFile ds)] := rfl
  have h1 : datasetFilterOut m ds (mkDsNode name ds colsFilename) = true := by
    have hkeep : textKeep m ds (mkDsNode name ds colsFilename) = false := by
      unfold textKeep
      rw [if_neg hfne, hrowF]
      rw [Bool.or_eq_false_iff]
      constructor
      · rw [List.any_eq_false]
        intro t ht
        simp [htags t ht]
      · rw [List.any_eq_false]
        intro c hc
        simp only [List.mem_cons, List.not_mem_nil, or_false] at hc
        rcases hc with rfl | rfl | rfl
        · simp [hname]
        · simp [hsize]
        · simp [htype]
    unfold datasetFilterOut
    rw [hkeep]
    simp
  have h2 : datasetFilterOut m ds (mkDsNode name ds colsTags) = false := by
    rw [filterOut_false_iff]
    refine ⟨hdims, hdt, ?_⟩
    unfold textKeep
    rw [if_neg hfne, hrowT]
    rw [Bool.or_eq_true]
    right
    rw [List.any_eq_true]
    exact ⟨basename (datasetLinkFile ds), by simp, hlink⟩
  refine ⟨h1, h2, ?_, ?_⟩
  · intro g
    have h3 := grpChildCnt_makeGrpTree m ["Dataset", "Size", "Type"]
      colsFilename (fun d => [datasetLinkFile d]) .filenode
      (fun d => by simp) hnd (fun p => rfl) name ds hmem g
    rw [show makeGrpTreeFilename m =
      makeGrpTree m ["Dataset", "Size", "Type"] colsFilename
        (fun d => [datasetLinkFile d]) .filenode from rfl]
    rw [h3, h1]
    simp
  · intro g
    have h4 := grpChildCnt_makeGrpTree m ["Dataset", "Size", "Type", "Filename"]
      colsTags getgrpTags .tm getgrpTags_nodup hnd (fun p => rfl) name ds hmem g
    rw [show makeGrpTreeTags m =
      makeGrpTree m ["Dataset", "Size", "Type", "Filename"] colsTags getgrpTags .tm
      from rfl]
    rw [h4, h2]
    by_cases hg : g ∈ getgrpTags ds
    · rw [if_pos hg, if_pos]
      simp only [Bool.not_false, Bool.true_and]
      exact List.elem_iff.2 hg
    · rw [if_neg hg, if_neg]
      intro hcon
      rw [Bool.and_eq_true] at hcon
      exact hg (List.elem_iff.1 hcon.2)

/-- Witness for the amended C10 at a concrete model. -/
theorem claim_C10_filename_columns_witness :
    datasetFilterOut mC10w dsC10w (mkDsNode "x" dsC10w colsFilename) = true ∧
    grpChildCnt (makeGrpTreeTags mC10w) "None" "x" =
      if "None" ∈ getgrpTags dsC10w then 1 else 0 :=
  ⟨(claim_C10_filename_columns mC10w "x" dsC10w (by decide) (by decide)
      (by decide) (by decide) (by intro t ht; cases ht) (by decide)
      rfl rfl (by decide) (by simp [mC10w])).1,
   (claim_C10_filename_columns mC10w "x" dsC10w (by decide) (by decide)
      (by decide) (by decide) (by intro t ht; cases ht) (by decide)
      rfl rfl (by decide) (by simp [mC10w])).2.2.2 "None"⟩
